import Mathlib

/-!
Shallow embedding of `src/mat4.hpp` (class `Mat4`): a row-major 4×4 float
matrix stored in a flat `std::vector<float>` of 16 elements, with
construction modes (identity / ones / zeros / z-rotation / translation /
scale), element access, random uniform fill, transpose, elementwise and
matrix arithmetic, a matrix×3-vector product, a column-major dump into a
caller buffer, and translation extraction.

Modelling choices:
* `float` is idealized as an element of a `Field` (`ℚ` for the decidable
  claims, `ℝ` where `cos`/`sin` from `<cmath>` are needed).
* The backing `std::vector<float>` is a `List α`; `values[i*nC+j]` reads
  become `List.getD (i*4+j) 0` and writes become `List.set (i*4+j) v`
  (in-range behaviour identical to the C++ code; out-of-range access is
  undefined behaviour in the C++ source and claims only concern in-range
  indices).
* The process-wide generator `rand()` is modelled as an explicit stream
  `gen : ℕ → ℕ` of raw draws bounded by a `RAND_MAX` parameter, consumed
  in element order `i*4+j` exactly as the nested loops of `setUniform` do.
* C++ mutators (`setZeros`, `setIdentity`, ..., which overwrite all 16
  slots of the backing vector and return `this`) are modelled as functions
  returning the overwritten matrix.
-/

namespace Mat4Spec

/-- `Vec3` / `Vec3f`. Modelled from the spec: the 3-component vector type
(`vec3.hpp` is not part of the sources); the spec only requires three
numeric components accessible by name or index (`v[0]`,`v[1]`,`v[2]`) and
construction from three numeric values. -/
@[ext]
structure Vec3 (α : Type) where
  x : α
  y : α
  z : α
deriving DecidableEq, Repr

namespace Vec3

/-- Component access `v[k]` for `k = 0, 1, 2` (out of range is UB in C++;
we return `0`). -/
def nth {α : Type} [Zero α] (v : Vec3 α) : Nat → α
  | 0 => v.x
  | 1 => v.y
  | 2 => v.z
  | _ => 0

end Vec3

/-- The `enum INIT { IDENTITY, ONES, ZEROS }` selector of the default
constructor. -/
inductive INIT where
  | IDENTITY
  | ONES
  | ZEROS
deriving DecidableEq, Repr

/-- `class Mat4`: `std::vector<float> values` in row-major order with
`nR = nC = 4`. The length-16 invariant is *not* baked into the type;
it is proved to be established and preserved (claim C9). -/
@[ext]
structure Mat4 (α : Type) where
  values : List α
deriving DecidableEq, Repr

namespace Mat4

variable {α : Type} [Field α]

/-- Builds the row-major backing vector of a matrix whose entry at row `i`,
column `j` is `f i j`: linear offset `p = i*4 + j`, so `i = p / 4`,
`j = p % 4`. Used to express the fully-overwriting double loops of the
C++ code. -/
def ofEntries (f : Nat → Nat → α) : Mat4 α :=
  ⟨List.ofFn (n := 16) fun p => f (p.val / 4) (p.val % 4)⟩

/-- `float get(i, j) const { return values[i * nC + j]; }` -/
def get (m : Mat4 α) (i j : Nat) : α :=
  m.values.getD (i * 4 + j) 0

/-- `void set(i, j, k) { values[i * nC + j] = k; }` -/
def set (m : Mat4 α) (i j : Nat) (k : α) : Mat4 α :=
  ⟨m.values.set (i * 4 + j) k⟩

/-- `Mat4 *setZeros()`: the double loop writes `0` into every slot
`i*nC+j`, `i, j ∈ [0,4)`. -/
def setZeros (_m : Mat4 α) : Mat4 α :=
  ofEntries fun _ _ => 0

/-- `Mat4 *setOnes()`: writes `1` into every slot. -/
def setOnes (_m : Mat4 α) : Mat4 α :=
  ofEntries fun _ _ => 1

/-- `Mat4 *setIdentity()`: writes `(i == j)` into slot `i*nC+j`. -/
def setIdentity (_m : Mat4 α) : Mat4 α :=
  ofEntries fun i j => if i = j then 1 else 0

/-- `Mat4 *setUniform(low, high)`: for each slot (row-major order, so the
`i*4+j`-th call to `rand()` feeds element `(i,j)`) draws
`randomNumber = (float) rand() / RAND_MAX` and stores
`low + randomNumber * (high - low)`. `gen` is the stream of raw `rand()`
outputs and `RM` is `RAND_MAX`. -/
def setUniform (_m : Mat4 α) (gen : Nat → Nat) (RM : Nat) (low high : α) : Mat4 α :=
  ofEntries fun i j => low + ((gen (i * 4 + j) : α) / (RM : α)) * (high - low)

/-- `explicit Mat4(enum INIT init = IDENTITY)`: `values.resize(16)`
(zero-filling) followed by the selected full overwrite. -/
def mkInit (init : INIT) : Mat4 α :=
  match init with
  | .IDENTITY => setIdentity ⟨List.replicate 16 0⟩
  | .ONES => setOnes ⟨List.replicate 16 0⟩
  | .ZEROS => setZeros ⟨List.replicate 16 0⟩

/-- The default-constructed matrix `Mat4()` (IDENTITY mode). -/
def identity : Mat4 α := mkInit .IDENTITY

/-- `explicit Mat4(const Vec3 translation)`: identity, then
`values[3] = t.x; values[7] = t.y; values[11] = t.z;`. -/
def ofTranslation (t : Vec3 α) : Mat4 α :=
  ⟨(((identity (α := α)).values.set 3 t.x).set 7 t.y).set 11 t.z⟩

/-- `explicit Mat4(const float scaleX, scaleY, scaleZ)`: identity, then
`values[0] = sx; values[5] = sy; values[10] = sz;`. -/
def ofScale (sx sy sz : α) : Mat4 α :=
  ⟨(((identity (α := α)).values.set 0 sx).set 5 sy).set 10 sz⟩

/-- Copy constructor `Mat4(const Mat4 &m)`: copies slot `i*nC+j` for
`i, j ∈ [0,4)`. -/
def copy (m : Mat4 α) : Mat4 α :=
  ofEntries fun i j => m.get i j

/-- Transpose `Mat4 operator~()`: starts from a default-constructed
(identity) result and writes `result.values[j*nR+i] = values[i*nC+j]`
for all `i, j ∈ [0,4)` — every slot of the result is overwritten, with
entry at row `r`, column `c` equal to the input entry at row `c`,
column `r`. -/
def transpose (m : Mat4 α) : Mat4 α :=
  ofEntries fun r c => m.get c r

/-- `Mat4 operator+(Mat4 const &m)`: elementwise add. -/
def add (m n : Mat4 α) : Mat4 α :=
  ofEntries fun i j => m.get i j + n.get i j

/-- `Mat4 operator-(Mat4 const &m)`: elementwise subtract. -/
def sub (m n : Mat4 α) : Mat4 α :=
  ofEntries fun i j => m.get i j - n.get i j

/-- `Mat4 operator*(Mat4 const &m)`: matrix multiply;
`elementSum` starts at `0` and accumulates
`values[i*nC+k] * m.values[k*nC+j]` for `k = 0, 1, 2, 3` in order. -/
def mul (m n : Mat4 α) : Mat4 α :=
  ofEntries fun i j => (List.range 4).foldl (fun s k => s + m.get i k * n.get k j) 0

/-- `Vec3f operator*(Vec3f const &v)`: reads `values[0..2]`,
`values[4..6]`, `values[8..10]` only. -/
def mulVec (m : Mat4 α) (v : Vec3 α) : Vec3 α :=
  ⟨m.values.getD 0 0 * v.nth 0 + m.values.getD 1 0 * v.nth 1 + m.values.getD 2 0 * v.nth 2,
   m.values.getD 4 0 * v.nth 0 + m.values.getD 5 0 * v.nth 1 + m.values.getD 6 0 * v.nth 2,
   m.values.getD 8 0 * v.nth 0 + m.values.getD 9 0 * v.nth 1 + m.values.getD 10 0 * v.nth 2⟩

/-- `Mat4 operator*(float const &value)`: elementwise scalar multiply. -/
def smul (m : Mat4 α) (value : α) : Mat4 α :=
  ofEntries fun i j => m.get i j * value

/-- `Mat4 operator%(Mat4 const &m)`: elementwise (Hadamard) multiply. -/
def hadamard (m n : Mat4 α) : Mat4 α :=
  ofEntries fun i j => m.get i j * n.get i j

/-- `void dumpColumnWise(float *array) const`: for each `i, j ∈ [0,4)`
writes `array[i + j*nR] = values[i*nC+j]`; the caller buffer is a list,
written with `List.set` in the loop order of the source. -/
def dumpColumnWise (m : Mat4 α) (array : List α) : List α :=
  (List.range 4).foldl
    (fun arr i => (List.range 4).foldl
      (fun arr2 j => arr2.set (i + j * 4) (m.get i j)) arr) array

/-- `Vec3 getTranslationVec3() const { return {values[3], values[7], values[11]}; }` -/
def getTranslationVec3 (m : Mat4 α) : Vec3 α :=
  ⟨m.values.getD 3 0, m.values.getD 7 0, m.values.getD 11 0⟩

/-- `explicit Mat4(const float angleInDegrees)`: identity, then
`values[0] = cos(a/180*M_PI); values[1] = -sin(a/180*M_PI);
values[4] = sin(a/180*M_PI); values[5] = cos(a/180*M_PI);`
(`M_PI` idealized as `Real.pi`, `cos`/`sin` from `<cmath>` as
`Real.cos`/`Real.sin`). -/
noncomputable def ofAngle (angleInDegrees : ℝ) : Mat4 ℝ :=
  ⟨(((((identity (α := ℝ)).values.set 0
      (Real.cos (angleInDegrees / 180 * Real.pi))).set 1
      (-Real.sin (angleInDegrees / 180 * Real.pi))).set 4
      (Real.sin (angleInDegrees / 180 * Real.pi))).set 5
      (Real.cos (angleInDegrees / 180 * Real.pi)))⟩

end Mat4

namespace Mat4

variable {α : Type} [Field α]

/-- Reading an in-range entry of a matrix built by `ofEntries` returns the
generating function's value. -/
lemma get_ofEntries (f : Nat → Nat → α) (i j : Nat) (hi : i < 4) (hj : j < 4) :
    (ofEntries f).get i j = f i j := by
  unfold ofEntries get
  rw [List.getD_eq_getElem?_getD, List.getElem?_eq_getElem (by simp; omega)]
  simp only [List.getElem_ofFn, Option.getD_some]
  congr 1
  · omega
  · omega

omit [Field α] in
/-- `List.set` followed by `List.getD`, as one conditional equation. -/
lemma getD_set (l : List α) (i p : Nat) (a d : α) :
    (l.set i a).getD p d = if i = p ∧ i < l.length then a else l.getD p d := by
  by_cases hip : i = p
  · subst hip
    by_cases h : i < l.length
    · simp [List.getD_eq_getElem?_getD, List.getElem?_set_self h, h]
    · rw [List.set_eq_of_length_le (by omega)]
      simp [h]
  · simp [List.getD_eq_getElem?_getD, List.getElem?_set_ne hip, hip]

/-- The backing list of the default (IDENTITY) matrix, concretely. -/
lemma identity_values :
    (identity : Mat4 α).values =
      [1, 0, 0, 0, 0, 1, 0, 0, 0, 0, 1, 0, 0, 0, 0, 1] := by
  rfl

omit [Field α] in
/-- Peeling one `List.set` at an offset below 16 off a `getD` at an
offset of at least 16. -/
lemma getD_set_of_ge (l : List α) (i p : Nat) (a d : α) (hip : i < 16)
    (hp : 16 ≤ p) : (l.set i a).getD p d = l.getD p d := by
  rw [getD_set, if_neg (by omega : ¬(i = p ∧ i < l.length))]

/-- In-range entries of the default (IDENTITY) matrix. -/
lemma get_identity (i j : Nat) (hi : i < 4) (hj : j < 4) :
    (identity : Mat4 α).get i j = if i = j then 1 else 0 := by
  show (ofEntries fun i j => if i = j then (1 : α) else 0).get i j = _
  exact get_ofEntries _ i j hi hj

end Mat4

open Mat4

/-- C1: for all `Mat4` values `a` and `b`, the matrix-multiply operator
returns a matrix whose entry at row `i`, column `j` is the sum over
`k ∈ [0,4)` of `a[i][k] * b[k][j]` (accumulated from `0` in increasing
`k` order — in the idealized field this equals the sum). -/
theorem C1_mul_entry (a b : Mat4 ℚ) (i j : Fin 4) :
    (a.mul b).get i.val j.val = ∑ k ∈ Finset.range 4, a.get i.val k * b.get k j.val := by
  rw [mul, get_ofEntries _ _ _ i.isLt j.isLt]
  show List.foldl _ 0 [0, 1, 2, 3] = _
  rw [Finset.sum_range_succ, Finset.sum_range_succ, Finset.sum_range_succ,
    Finset.sum_range_one]
  simp [List.foldl]

/-- C2: the matrix-times-vector operator returns the 3-vector whose
component `i` is `Σ_{k=0}^{2} M[i][k]·v[k]`, and the result depends only
on the top-left 3×3 block of `M`: two matrices agreeing there produce the
same result, whatever their translation column and bottom row hold. -/
theorem C2_mulVec_linear (m mB : Mat4 ℚ) (v : Vec3 ℚ)
    (h : ∀ i j : Fin 3, m.get i.val j.val = mB.get i.val j.val) :
    (∀ i : Fin 3, (m.mulVec v).nth i.val =
      ∑ k ∈ Finset.range 3, m.get i.val k * v.nth k) ∧
    m.mulVec v = mB.mulVec v := by
  constructor
  · intro i
    fin_cases i <;>
      · rw [Finset.sum_range_succ, Finset.sum_range_succ, Finset.sum_range_one]
        norm_num [Mat4.mulVec, Mat4.get, Vec3.nth]
  · have e00 := h 0 0; have e01 := h 0 1; have e02 := h 0 2
    have e10 := h 1 0; have e11 := h 1 1; have e12 := h 1 2
    have e20 := h 2 0; have e21 := h 2 1; have e22 := h 2 2
    norm_num [Mat4.get] at e00 e01 e02 e10 e11 e12 e20 e21 e22
    unfold mulVec
    simp only [List.getD_eq_getElem?_getD]
    rw [e00, e01, e02, e10, e11, e12, e20, e21, e22]

/-- C2 witness: a translation matrix and the identity agree on the
top-left 3×3 block, so they transform (1,2,3) identically. -/
theorem C2_mulVec_linear_witness :
    (∀ i j : Fin 3, (ofTranslation (⟨5, 6, 7⟩ : Vec3 ℚ)).get i.val j.val =
      (identity : Mat4 ℚ).get i.val j.val) ∧
    (ofTranslation (⟨5, 6, 7⟩ : Vec3 ℚ)).mulVec ⟨1, 2, 3⟩ =
      (identity : Mat4 ℚ).mulVec ⟨1, 2, 3⟩ :=
  ⟨by decide, (C2_mulVec_linear _ _ _ (by decide)).2⟩

/-- C4: transpose satisfies `output[j][i] = input[i][j]` for all in-range
`i`, `j`, and transposing twice is elementwise the original matrix. -/
theorem C4_transpose_involutive (m : Mat4 ℚ) :
    (∀ i j : Fin 4, m.transpose.get j.val i.val = m.get i.val j.val) ∧
    (∀ i j : Fin 4, m.transpose.transpose.get i.val j.val = m.get i.val j.val) := by
  constructor
  · intro i j
    rw [transpose, get_ofEntries _ _ _ j.isLt i.isLt]
  · intro i j
    rw [transpose, get_ofEntries _ _ _ i.isLt j.isLt]
    rw [transpose, get_ofEntries _ _ _ j.isLt i.isLt]

/-- C3 counterexample: `(float) rand() / RAND_MAX` is `1` when `rand()`
returns `RAND_MAX` (a legal output of `rand()`, whose range is
`[0, RAND_MAX]` inclusive), so with `low = 0`, `high = 1` the element
equals `high` and does not lie in the half-open interval `[low, high)`. -/
theorem C3_setUniform_counterexample :
    (∀ n : Nat, (fun _ : Nat => 32767) n ≤ 32767) ∧ (0 : ℚ) ≤ 1 ∧
    ((identity : Mat4 ℚ).setUniform (fun _ => 32767) 32767 0 1).get 0 0 = 1 ∧
    ¬ ((identity : Mat4 ℚ).setUniform (fun _ => 32767) 32767 0 1).get 0 0 < 1 := by
  have hval : ((identity : Mat4 ℚ).setUniform (fun _ => 32767) 32767 0 1).get 0 0 = 1 := by
    rw [setUniform, get_ofEntries _ 0 0 (by norm_num) (by norm_num)]
    norm_num
  refine ⟨fun _ => le_refl _, by norm_num, hval, ?_⟩
  rw [hval]
  exact lt_irrefl 1

/-- C3 (amended): with `0 < RAND_MAX`, every raw draw bounded by
`RAND_MAX` and `low ≤ high`, each element of `setUniform(low, high)` lies
in the *closed* interval `[low, high]` and equals `low + u·(high−low)`
for some generator-derived `u ∈ [0, 1]` (closed at `1`, reached when the
generator outputs `RAND_MAX`). -/
theorem C3_setUniform_range (m : Mat4 ℚ) (gen : Nat → Nat) (RM : Nat)
    (low high : ℚ) (hRM : 0 < RM) (hgen : ∀ n, gen n ≤ RM) (hlh : low ≤ high)
    (i j : Fin 4) :
    low ≤ (m.setUniform gen RM low high).get i.val j.val ∧
    (m.setUniform gen RM low high).get i.val j.val ≤ high ∧
    ∃ u : ℚ, 0 ≤ u ∧ u ≤ 1 ∧
      (m.setUniform gen RM low high).get i.val j.val = low + u * (high - low) := by
  rw [setUniform, get_ofEntries _ _ _ i.isLt j.isLt]
  set u : ℚ := (gen (i.val * 4 + j.val) : ℚ) / (RM : ℚ) with hu
  have hRMQ : (0 : ℚ) < (RM : ℚ) := by exact_mod_cast hRM
  have hu0 : 0 ≤ u := by
    rw [hu]
    exact div_nonneg (by positivity) (le_of_lt hRMQ)
  have hu1 : u ≤ 1 := by
    rw [hu, div_le_one hRMQ]
    exact_mod_cast hgen (i.val * 4 + j.val)
  refine ⟨?_, ?_, u, hu0, hu1, rfl⟩
  · nlinarith
  · nlinarith

/-- C3 witness: a concrete bounded generator with `low = 2`, `high = 5`
keeps element (0,0) in `[2, 5]`. -/
theorem C3_setUniform_range_witness :
    (0 < 100 ∧ (∀ n : Nat, (fun _ : Nat => 57) n ≤ 100) ∧ (2 : ℚ) ≤ 5) ∧
    (2 ≤ ((identity : Mat4 ℚ).setUniform (fun _ => 57) 100 2 5).get 0 0 ∧
      ((identity : Mat4 ℚ).setUniform (fun _ => 57) 100 2 5).get 0 0 ≤ 5 ∧
      ∃ u : ℚ, 0 ≤ u ∧ u ≤ 1 ∧
        ((identity : Mat4 ℚ).setUniform (fun _ => 57) 100 2 5).get 0 0 =
          2 + u * (5 - 2)) :=
  ⟨⟨by norm_num, fun _ => by norm_num, by norm_num⟩,
    C3_setUniform_range identity _ 100 2 5 (by norm_num) (fun _ => by norm_num)
      (by norm_num) 0 0⟩

/-- C5: the default-constructed (IDENTITY) matrix is a two-sided
multiplicative identity, elementwise. -/
theorem C5_identity_mul (m : Mat4 ℚ) (i j : Fin 4) :
    ((identity : Mat4 ℚ).mul m).get i.val j.val = m.get i.val j.val ∧
    (m.mul (identity : Mat4 ℚ)).get i.val j.val = m.get i.val j.val := by
  constructor <;>
  · rw [mul, get_ofEntries _ _ _ i.isLt j.isLt]
    show List.foldl _ 0 [0, 1, 2, 3] = _
    fin_cases i <;> fin_cases j <;>
      simp [List.foldl, Mat4.get, identity_values]

/-- C6: the translation constructor yields the identity except for the
translation components at `(0,3)`, `(1,3)`, `(2,3)` (linear offsets 3, 7,
11), and `getTranslationVec3` recovers exactly the constructing vector. -/
theorem C6_translation_roundtrip (t : Vec3 ℚ) :
    (∀ i j : Fin 4, (ofTranslation t).get i.val j.val =
      if i.val = 0 ∧ j.val = 3 then t.x
      else if i.val = 1 ∧ j.val = 3 then t.y
      else if i.val = 2 ∧ j.val = 3 then t.z
      else if i.val = j.val then 1 else 0) ∧
    (ofTranslation t).getTranslationVec3 = t := by
  have hv : (ofTranslation t).values =
      [1, 0, 0, t.x, 0, 1, 0, t.y, 0, 0, 1, t.z, 0, 0, 0, 1] := rfl
  constructor
  · intro i j
    fin_cases i <;> fin_cases j <;> simp [Mat4.get, hv]
  · ext <;> simp [getTranslationVec3, hv]

/-- C7: the rotation constructor converts degrees to radians
(`θ = a·π/180`; the code computes `a/180·π`, the same real number) and
yields the identity with its top-left 2×2 block replaced by
`[[cos θ, −sin θ], [sin θ, cos θ]]`; at angle 0 it is exactly the
identity matrix. -/
theorem C7_rotation (a : ℝ) :
    (∀ i j : Fin 4, (ofAngle a).get i.val j.val =
      if i.val = 0 ∧ j.val = 0 then Real.cos (a * Real.pi / 180)
      else if i.val = 0 ∧ j.val = 1 then -Real.sin (a * Real.pi / 180)
      else if i.val = 1 ∧ j.val = 0 then Real.sin (a * Real.pi / 180)
      else if i.val = 1 ∧ j.val = 1 then Real.cos (a * Real.pi / 180)
      else if i.val = j.val then 1 else 0) ∧
    ofAngle 0 = (identity : Mat4 ℝ) := by
  have harg : a / 180 * Real.pi = a * Real.pi / 180 := by ring
  have hv : (ofAngle a).values =
      [Real.cos (a / 180 * Real.pi), -Real.sin (a / 180 * Real.pi), 0, 0,
       Real.sin (a / 180 * Real.pi), Real.cos (a / 180 * Real.pi), 0, 0,
       0, 0, 1, 0, 0, 0, 0, 1] := rfl
  constructor
  · intro i j
    fin_cases i <;> fin_cases j <;> simp [Mat4.get, hv, harg]
  · apply Mat4.ext
    have hv0 : (ofAngle 0).values =
        [Real.cos (0 / 180 * Real.pi), -Real.sin (0 / 180 * Real.pi), 0, 0,
         Real.sin (0 / 180 * Real.pi), Real.cos (0 / 180 * Real.pi), 0, 0,
         0, 0, 1, 0, 0, 0, 0, 1] := rfl
    rw [hv0, identity_values]
    norm_num

set_option maxHeartbeats 1600000 in
/-- C8: the column-major dump writes `M[i][j]` to buffer offset
`i + j·4` for all in-range `i`, `j`, leaves offsets `≥ 16` untouched,
preserves the buffer length, and dumping the identity into a 16-slot
buffer yields `[1,0,0,0, 0,1,0,0, 0,0,1,0, 0,0,0,1]`. -/
theorem C8_dumpColumnWise (m : Mat4 ℚ) (arr : List ℚ) (h : 16 ≤ arr.length) :
    (∀ i j : Fin 4, (m.dumpColumnWise arr).getD (i.val + j.val * 4) 0 =
      m.get i.val j.val) ∧
    (∀ p : Nat, 16 ≤ p → (m.dumpColumnWise arr).getD p 0 = arr.getD p 0) ∧
    (m.dumpColumnWise arr).length = arr.length ∧
    (identity : Mat4 ℚ).dumpColumnWise (List.replicate 16 0) =
      [1, 0, 0, 0, 0, 1, 0, 0, 0, 0, 1, 0, 0, 0, 0, 1] := by
  have hd : m.dumpColumnWise arr =
      (((((((((((((((arr.set 0 (m.get 0 0)).set 4 (m.get 0 1)).set 8
        (m.get 0 2)).set 12 (m.get 0 3)).set 1 (m.get 1 0)).set 5
        (m.get 1 1)).set 9 (m.get 1 2)).set 13 (m.get 1 3)).set 2
        (m.get 2 0)).set 6 (m.get 2 1)).set 10 (m.get 2 2)).set 14
        (m.get 2 3)).set 3 (m.get 3 0)).set 7 (m.get 3 1)).set 11
        (m.get 3 2)).set 15 (m.get 3 3) := by
    simp only [Mat4.dumpColumnWise, List.range_succ, List.range_zero,
      List.foldl_nil, List.foldl_cons, List.foldl_append]
  have h0 : 0 < arr.length := by omega
  have h1 : 1 < arr.length := by omega
  have h2 : 2 < arr.length := by omega
  have h3 : 3 < arr.length := by omega
  have h4 : 4 < arr.length := by omega
  have h5 : 5 < arr.length := by omega
  have h6 : 6 < arr.length := by omega
  have h7 : 7 < arr.length := by omega
  have h8 : 8 < arr.length := by omega
  have h9 : 9 < arr.length := by omega
  have h10 : 10 < arr.length := by omega
  have h11 : 11 < arr.length := by omega
  have h12 : 12 < arr.length := by omega
  have h13 : 13 < arr.length := by omega
  have h14 : 14 < arr.length := by omega
  have h15 : 15 < arr.length := by omega
  refine ⟨?_, ?_, ?_, ?_⟩
  · intro i j
    fin_cases i <;> fin_cases j <;>
      simp [hd, getD_set, List.length_set,
        h0, h1, h2, h3, h4, h5, h6, h7, h8, h9, h10, h11, h12, h13, h14, h15]
  · intro p hp
    rw [hd]
    repeat rw [getD_set_of_ge _ _ _ _ _ (by omega) hp]
  · rw [hd]
    simp [List.length_set]
  · decide

/-- C8 witness: the dump contract applied to the identity matrix and a
concrete 16-slot zero buffer. -/
theorem C8_dumpColumnWise_witness :
    16 ≤ (List.replicate 16 (0 : ℚ)).length ∧
    ((∀ i j : Fin 4,
      ((identity : Mat4 ℚ).dumpColumnWise (List.replicate 16 0)).getD
        (i.val + j.val * 4) 0 = (identity : Mat4 ℚ).get i.val j.val) ∧
    (∀ p : Nat, 16 ≤ p →
      ((identity : Mat4 ℚ).dumpColumnWise (List.replicate 16 0)).getD p 0 =
        (List.replicate 16 (0 : ℚ)).getD p 0) ∧
    ((identity : Mat4 ℚ).dumpColumnWise (List.replicate 16 0)).length =
      (List.replicate 16 (0 : ℚ)).length ∧
    (identity : Mat4 ℚ).dumpColumnWise (List.replicate 16 0) =
      [1, 0, 0, 0, 0, 1, 0, 0, 0, 0, 1, 0, 0, 0, 0, 1]) :=
  ⟨by decide, C8_dumpColumnWise identity (List.replicate 16 0) (by decide)⟩

/-- C9: every construction mode and every operation keeps the backing
sequence at exactly 16 elements — constructors and full-overwrite
mutators produce length 16, `set` never changes the length, and the dump
never changes the caller buffer's length. (Totality over well-formed
inputs holds by construction: every modelled operation is a total
function.) -/
theorem C9_size_invariant :
    (∀ init : INIT, (mkInit init : Mat4 ℚ).values.length = 16) ∧
    (∀ a : ℝ, (ofAngle a).values.length = 16) ∧
    (∀ t : Vec3 ℚ, (ofTranslation t).values.length = 16) ∧
    (∀ sx sy sz : ℚ, (ofScale sx sy sz).values.length = 16) ∧
    (∀ m : Mat4 ℚ, (copy m).values.length = 16) ∧
    (∀ (m : Mat4 ℚ) (i j : Nat) (v : ℚ),
      (Mat4.set m i j v).values.length = m.values.length) ∧
    (∀ m : Mat4 ℚ, (setZeros m).values.length = 16 ∧
      (setOnes m).values.length = 16 ∧ (setIdentity m).values.length = 16) ∧
    (∀ (m : Mat4 ℚ) (gen : Nat → Nat) (RM : Nat) (low high : ℚ),
      (setUniform m gen RM low high).values.length = 16) ∧
    (∀ m : Mat4 ℚ, (transpose m).values.length = 16) ∧
    (∀ m n : Mat4 ℚ, (add m n).values.length = 16 ∧
      (sub m n).values.length = 16 ∧ (mul m n).values.length = 16 ∧
      (hadamard m n).values.length = 16) ∧
    (∀ (m : Mat4 ℚ) (c : ℚ), (smul m c).values.length = 16) ∧
    (∀ (m : Mat4 ℚ) (arr : List ℚ),
      (m.dumpColumnWise arr).length = arr.length) := by
  refine ⟨?_, ?_, ?_, ?_, ?_, ?_, ?_, ?_, ?_, ?_, ?_, ?_⟩
  · intro init
    cases init <;>
      simp [mkInit, setIdentity, setOnes, setZeros, ofEntries]
  · intro a
    simp [ofAngle, identity_values]
  · intro t
    simp [ofTranslation, identity_values]
  · intro sx sy sz
    simp [ofScale, identity_values]
  · intro m
    simp [copy, ofEntries]
  · intro m i j v
    simp [Mat4.set]
  · intro m
    refine ⟨?_, ?_, ?_⟩ <;> simp [setZeros, setOnes, setIdentity, ofEntries]
  · intro m gen RM low high
    simp [setUniform, ofEntries]
  · intro m
    simp [transpose, ofEntries]
  · intro m n
    refine ⟨?_, ?_, ?_, ?_⟩ <;> simp [add, sub, mul, hadamard, ofEntries]
  · intro m c
    simp [smul, ofEntries]
  · intro m arr
    have hd : m.dumpColumnWise arr =
        (((((((((((((((arr.set 0 (m.get 0 0)).set 4 (m.get 0 1)).set 8
          (m.get 0 2)).set 12 (m.get 0 3)).set 1 (m.get 1 0)).set 5
          (m.get 1 1)).set 9 (m.get 1 2)).set 13 (m.get 1 3)).set 2
          (m.get 2 0)).set 6 (m.get 2 1)).set 10 (m.get 2 2)).set 14
          (m.get 2 3)).set 3 (m.get 3 0)).set 7 (m.get 3 1)).set 11
          (m.get 3 2)).set 15 (m.get 3 3) := by
      simp only [Mat4.dumpColumnWise, List.range_succ, List.range_zero,
        List.foldl_nil, List.foldl_cons, List.foldl_append]
    rw [hd]
    simp [List.length_set]

/-- C10: `set(i, j, v)` changes exactly the element at `(i, j)`:
afterwards `get(i, j)` returns `v` and every other in-range position
reads as before. -/
theorem C10_set_get_frame (m : Mat4 ℚ) (h : m.values.length = 16)
    (i j : Fin 4) (v : ℚ) :
    (Mat4.set m i.val j.val v).get i.val j.val = v ∧
    (∀ iB jB : Fin 4, ¬(iB = i ∧ jB = j) →
      (Mat4.set m i.val j.val v).get iB.val jB.val = m.get iB.val jB.val) := by
  have hi := i.isLt
  have hj := j.isLt
  constructor
  · show (m.values.set _ v).getD _ 0 = v
    rw [getD_set, if_pos ⟨rfl, by omega⟩]
  · intro iB jB hne
    have hiB := iB.isLt
    have hjB := jB.isLt
    show (m.values.set _ v).getD _ 0 = m.values.getD _ 0
    rw [getD_set, if_neg]
    rintro ⟨heq, -⟩
    refine hne ⟨?_, ?_⟩ <;> · apply Fin.ext; omega

/-- C10 witness: setting `(1,2)` of the identity to `42` yields `42`
there and leaves `(0,0)` unchanged. -/
theorem C10_set_get_frame_witness :
    (identity : Mat4 ℚ).values.length = 16 ∧
    ((Mat4.set (identity : Mat4 ℚ) 1 2 42).get 1 2 = 42 ∧
      (Mat4.set (identity : Mat4 ℚ) 1 2 42).get 0 0 =
        (identity : Mat4 ℚ).get 0 0) :=
  ⟨by decide,
    ⟨(C10_set_get_frame identity (by decide) 1 2 42).1,
      (C10_set_get_frame identity (by decide) 1 2 42).2 0 0 (by decide)⟩⟩

end Mat4Spec
